import Mathlib

/-!
# Verification of the telegramCode output-reconciliation core

Shallow embedding of the text-processing, delivery-queue, rate-limiting and
session-lifecycle logic of the Telegram ⇄ CLI-agent bridge, together with
proofs settling the frozen claims about it.

JS strings are modelled as `List Char` (wrapped into `String` at the public
API where convenient).  All character thresholds (`length > 200` etc.) are
code-point counts; every character handled by this program's heuristics lies
in the Basic Multilingual Plane, where code-point count coincides with the
JavaScript UTF-16 length.  Regexes are compiled by hand into executable
scanners that follow the JS regex semantics (leftmost match, `g` continuing
after each replacement, `i` case folding, `m` anchoring at line terminators).
-/

namespace TelegramCode

/-- The characters matched by JavaScript `\s` (also the set removed by
`String.prototype.trim`). -/
def isJsWs (c : Char) : Bool :=
  c = ' ' || c = '\t' || c = '\n' || c = '\r' ||
  c.toNat = 0x0b || c.toNat = 0x0c ||
  c.toNat = 0xa0 || c.toNat = 0x1680 ||
  (0x2000 ≤ c.toNat && c.toNat ≤ 0x200a) ||
  c.toNat = 0x2028 || c.toNat = 0x2029 ||
  c.toNat = 0x202f || c.toNat = 0x205f || c.toNat = 0x3000 || c.toNat = 0xfeff

/-- JS line terminators: the positions where `$` matches under the `m` flag,
and the characters `.` refuses to match. -/
def isLineTerm (c : Char) : Bool :=
  c = '\n' || c = '\r' || c.toNat = 0x2028 || c.toNat = 0x2029

/-- JS `String.prototype.trim`. -/
def jsTrim (cs : List Char) : List Char :=
  ((cs.dropWhile isJsWs).reverse.dropWhile isJsWs).reverse

/-- JS `String.prototype.trimStart`. -/
def jsTrimStart (cs : List Char) : List Char := cs.dropWhile isJsWs

/-- JS `text.split('\n')`. -/
def splitNl : List Char → List (List Char)
  | [] => [[]]
  | c :: cs =>
    if c = '\n' then [] :: splitNl cs
    else match splitNl cs with
      | l :: ls => (c :: l) :: ls
      | [] => [[c]]

/-- JS `lines.join('\n')`. -/
def joinNl : List (List Char) → List Char
  | [] => []
  | [l] => l
  | l :: ls => l ++ '\n' :: joinNl ls

/-- Case-insensitively strip an (already lower-cased, ASCII) pattern from the
front of `cs`, returning the remainder on success.  This is the building
block for the hand-compiled `/i` regex scanners. -/
def ciStrip : List Char → List Char → Option (List Char)
  | [], cs => some cs
  | _ :: _, [] => none
  | p :: ps, c :: cs => if c.toLower = p then ciStrip ps cs else none

/-- Test `/pat/i.test(cs)`: some substring of `cs` matches the literal pattern
case-insensitively (no `.` in the pattern, so any context is allowed). -/
def containsCI (pat : List Char) (cs : List Char) : Bool :=
  cs.tails.any fun t => (ciStrip pat t).isSome

/-- Search in the `.*pat` style: the literal pattern occurs after a (possibly
empty) run of characters that `.` can match (no line terminators). -/
def containsFromDot (pat : List Char) : List Char → Bool
  | [] => (ciStrip pat []).isSome
  | c :: cs => (ciStrip pat (c :: cs)).isSome || (!isLineTerm c && containsFromDot pat cs)

/-- Search in the `.*[set]` style: one of the characters of `set` occurs after a
run of `.`-matchable characters. -/
def hasCharAfterDots (set : List Char) : List Char → Bool
  | [] => false
  | c :: cs => set.contains c || (!isLineTerm c && hasCharAfterDots set cs)

/-- Global leftmost non-overlapping replacement of the literal sequence `pat`
by `rep` (the JS `str.replace(/pat/g, rep)` for a literal pattern).  The fuel
is the input length; every step consumes at least one input character
(matches consume `pat.length ≥ 1`), so the fuel never runs out on the
initial call `replaceAll`. -/
def replaceAllAux (pat rep : List Char) : Nat → List Char → List Char
  | _, [] => []
  | 0, cs => cs
  | fuel + 1, c :: cs =>
    if !pat.isEmpty && pat.isPrefixOf (c :: cs) then
      rep ++ replaceAllAux pat rep fuel ((c :: cs).drop pat.length)
    else
      c :: replaceAllAux pat rep fuel cs

def replaceAll (pat rep cs : List Char) : List Char :=
  replaceAllAux pat rep cs.length cs

/-! ## Terminal Text Normalizer (`convertAnsiToMarkdown`, `cleanOutput`)

Source: `src/adapters/claudeCliAdapter.ts` lines 44–129. -/

def escChar : Char := Char.ofNat 0x1b
/-- Bold-on sentinel `\x01`. -/
def sohChar : Char := Char.ofNat 0x01
/-- Bold-off sentinel `\x02`. -/
def stxChar : Char := Char.ofNat 0x02

/-- Class `[@-Z\\-_]`: ESC followed by one of these is a two-character escape. -/
def isAnsiSingle (c : Char) : Bool :=
  (0x40 ≤ c.toNat && c.toNat ≤ 0x5a) || (0x5c ≤ c.toNat && c.toNat ≤ 0x5f)

/-- Class `[0-?]`: CSI parameter bytes. -/
def isCsiParam (c : Char) : Bool := 0x30 ≤ c.toNat && c.toNat ≤ 0x3f

/-- Class of CSI intermediate bytes, space through slash. -/
def isCsiInter (c : Char) : Bool := 0x20 ≤ c.toNat && c.toNat ≤ 0x2f

/-- Class `[@-~]`: CSI final bytes. -/
def isCsiFinal (c : Char) : Bool := 0x40 ≤ c.toNat && c.toNat ≤ 0x7e

/-- Scanner state for `/\x1B(?:[@-Z\\-_]|\[[0-?]*[ -\/]*[@-~])/g`.
`buf` keeps the characters consumed so far by a candidate CSI match, so that
they can be flushed verbatim when the match fails.  None of the buffered
characters after the initial ESC (`[`, parameter and intermediate bytes) can
start a new match, hence flushing them whole is exactly the JS engine's
rescan-from-`ESC+1` behaviour. -/
inductive AnsiMode where
  | normal
  | sawEsc
  | csiParams (buf : List Char)
  | csiInters (buf : List Char)

/-- Strip all ANSI escape sequences (step 2 of `convertAnsiToMarkdown`). -/
def stripAnsiGo : AnsiMode → List Char → List Char
  | .normal, [] => []
  | .normal, c :: cs =>
    if c = escChar then stripAnsiGo .sawEsc cs else c :: stripAnsiGo .normal cs
  | .sawEsc, [] => [escChar]
  | .sawEsc, c :: cs =>
    if isAnsiSingle c then stripAnsiGo .normal cs
    else if c = '[' then stripAnsiGo (.csiParams [escChar, '[']) cs
    else escChar :: (if c = escChar then stripAnsiGo .sawEsc cs
                     else c :: stripAnsiGo .normal cs)
  | .csiParams buf, [] => buf
  | .csiParams buf, c :: cs =>
    if isCsiParam c then stripAnsiGo (.csiParams (buf ++ [c])) cs
    else if isCsiInter c then stripAnsiGo (.csiInters (buf ++ [c])) cs
    else if isCsiFinal c then stripAnsiGo .normal cs
    else buf ++ (if c = escChar then stripAnsiGo .sawEsc cs
                 else c :: stripAnsiGo .normal cs)
  | .csiInters buf, [] => buf
  | .csiInters buf, c :: cs =>
    if isCsiInter c then stripAnsiGo (.csiInters (buf ++ [c])) cs
    else if isCsiFinal c then stripAnsiGo .normal cs
    else buf ++ (if c = escChar then stripAnsiGo .sawEsc cs
                 else c :: stripAnsiGo .normal cs)

/-- Replacement callback of step 3: wrap the trimmed content in `*…*`, or
drop the markers if the content is all whitespace. -/
def boldTransform (buf : List Char) : List Char :=
  let t := jsTrim buf
  if t.isEmpty then buf else '*' :: (t ++ ['*'])

/-- Scanner for `/\x01([^\x01\x02]*)\x02/g` with the `boldTransform` callback.  The state
carries the content accumulated since the opening `\x01`; on a second `\x01`
the attempt fails (JS rescans from the next position, and none of the
buffered non-marker characters can start a match), on `\x02` it succeeds. -/
def boldPairsGo : Option (List Char) → List Char → List Char
  | none, [] => []
  | none, c :: cs =>
    if c = sohChar then boldPairsGo (some []) cs
    else c :: boldPairsGo none cs
  | some buf, [] => sohChar :: buf
  | some buf, c :: cs =>
    if c = stxChar then boldTransform buf ++ boldPairsGo none cs
    else if c = sohChar then (sohChar :: buf) ++ boldPairsGo (some []) cs
    else boldPairsGo (some (buf ++ [c])) cs

/-- Largest `j ≥ 1` such that `buf[j]` is a line terminator — the backtracked
`$` position inside a greedy `[^\x01\x02]+` run that did not reach the end of
the string. -/
def splitAtLastTerm (buf : List Char) : Option (List Char × List Char) :=
  (((List.range buf.length).filter fun j =>
      decide (1 ≤ j) && isLineTerm (buf.getD j ' ')).getLast?).map
    fun j => (buf.take j, buf.drop j)

/-- Pass for `/\x01([^\x01\x02]+)$/gm` → `*$1*`: close an unterminated bold-start.
With `m`, `$` matches at the end of the string or before a line terminator;
the greedy content run ends at the largest such position. -/
def closeUnclosedGo : Option (List Char) → List Char → List Char
  | none, [] => []
  | none, c :: cs =>
    if c = sohChar then closeUnclosedGo (some []) cs
    else c :: closeUnclosedGo none cs
  | some buf, [] =>
    if buf.isEmpty then [sohChar] else '*' :: (buf ++ ['*'])
  | some buf, c :: cs =>
    if c = sohChar || c = stxChar then
      (match splitAtLastTerm buf with
        | some (content, rest) => '*' :: (content ++ ['*']) ++ rest
        | none => sohChar :: buf) ++
      (if c = sohChar then closeUnclosedGo (some []) cs
       else c :: closeUnclosedGo none cs)
    else closeUnclosedGo (some (buf ++ [c])) cs

/-- Model of `convertAnsiToMarkdown` (claudeCliAdapter.ts:44–79).  The two bold-off
forms `ESC[0m` and `ESC[22m` can never overlap each other (both start with
`ESC[` and differ at the next byte) and the `\x02` replacement cannot create
new matches, so the alternation `\x1B\[(?:0|22)m` is equivalent to the two
sequential literal replacements used here. -/
def convertAnsiToMarkdown (cs : List Char) : List Char :=
  let r1 := replaceAll [escChar, '[', '1', 'm'] [sohChar] cs
  let r2 := replaceAll [escChar, '[', '2', '2', 'm'] [stxChar]
              (replaceAll [escChar, '[', '0', 'm'] [stxChar] r1)
  let r3 := stripAnsiGo .normal r2
  let r4 := boldPairsGo none r3
  let r5 := closeUnclosedGo none r4
  let r6 := r5.filter fun c => !(c = sohChar || c = stxChar)
  replaceAll ['*', '*'] ['*', ' ', '*'] r6

/-- The class `[\x00-\x09\x0b\x0c\x0e-\x1f\x7f]` stripped by `cleanOutput`. -/
def isStrippedCtrl (c : Char) : Bool :=
  c.toNat ≤ 0x09 || c.toNat = 0x0b || c.toNat = 0x0c ||
  (0x0e ≤ c.toNat && c.toNat ≤ 0x1f) || c.toNat = 0x7f

/-- Collapse every maximal run of three or more newlines to exactly two
(`text.replace(/\n{3,}/g, '\n\n')`); `n` counts the newlines of the current
run. -/
def collapseNlGo : Nat → List Char → List Char
  | n, [] => List.replicate (if 3 ≤ n then 2 else n) '\n'
  | n, c :: cs =>
    if c = '\n' then collapseNlGo (n + 1) cs
    else List.replicate (if 3 ≤ n then 2 else n) '\n' ++ c :: collapseNlGo 0 cs

def collapseNl (cs : List Char) : List Char := collapseNlGo 0 cs

/-- The URL-legal character class `[\w\-._~:/?#\[\]@!$&'()*+,;=%]` of
`joinBrokenUrls`. -/
def isUrlChar (c : Char) : Bool :=
  (('a' ≤ c && c ≤ 'z') || ('A' ≤ c && c ≤ 'Z') || ('0' ≤ c && c ≤ '9')) ||
  c = '_' || c = '-' || c = '.' || c = '_' || c = '~' || c = ':' || c = '/' ||
  c = '?' || c = '#' || c = '[' || c = ']' || c = '@' || c = '!' || c = '$' ||
  c = '&' || c = Char.ofNat 0x27 || c = '(' || c = ')' || c = '*' || c = '+' ||
  c = ',' || c = ';' || c = '=' || c = '%'

/-- Model of `line.match(/(https?:\/\/\S*)$/)`: split the line at the leftmost
position where an `http(s)://` token runs to the end of the line with no
whitespace.  Returns `(prefix, url)`. -/
def urlSplitGo (pre : List Char) : List Char → Option (List Char × List Char)
  | [] => none
  | c :: cs =>
    if (("http://".data.isPrefixOf (c :: cs)) || ("https://".data.isPrefixOf (c :: cs)))
        && (c :: cs).all (fun x => !isJsWs x) then
      some (pre.reverse, c :: cs)
    else urlSplitGo (c :: pre) cs

def urlSplit (line : List Char) : Option (List Char × List Char) :=
  urlSplitGo [] line

/-- The inner `while` condition of `joinBrokenUrls`: trimmed, non-empty, no
literal space, all URL-legal characters. -/
def absorbCond (l : List Char) : Bool :=
  let t := jsTrim l
  !t.isEmpty && !t.contains ' ' && t.all isUrlChar

/-- The line-walking loop of `joinBrokenUrls`.  The state holds the prefix
and URL being extended while the inner absorb loop runs; when a line breaks
the absorb loop the joined line is emitted and that line is reprocessed as a
fresh outer-loop iteration (inlined here to keep the recursion structural). -/
def joinUrlsGo : Option (List Char × List Char) → List (List Char) → List (List Char)
  | none, [] => []
  | some (pre, url), [] => [pre ++ url]
  | none, l :: rest =>
    (match urlSplit l with
      | some (pre, url) => joinUrlsGo (some (pre, url)) rest
      | none => l :: joinUrlsGo none rest)
  | some (pre, url), l :: rest =>
    if absorbCond l then joinUrlsGo (some (pre, url ++ jsTrim l)) rest
    else (pre ++ url) ::
      (match urlSplit l with
        | some (p2, u2) => joinUrlsGo (some (p2, u2)) rest
        | none => l :: joinUrlsGo none rest)

/-- Model of `joinBrokenUrls` (claudeCliAdapter.ts:85–119). -/
def joinBrokenUrls (cs : List Char) : List Char :=
  joinNl (joinUrlsGo none (splitNl cs))

/-- Model of `cleanOutput` (claudeCliAdapter.ts:121–129). -/
def cleanOutput (cs : List Char) : List Char :=
  let a := convertAnsiToMarkdown cs
  let b := a.filter fun c => !isStrippedCtrl c
  let c' := replaceAll ['\r'] ['\n'] (replaceAll ['\r', '\n'] ['\n'] b)
  let d := joinBrokenUrls c'
  let e := collapseNl d
  let f := joinNl ((splitNl e).filter fun l => !(jsTrim l).isEmpty || l.isEmpty)
  jsTrim f

/-- String-level wrapper of `cleanOutput`. -/
def cleanOutputS (s : String) : String := String.mk (cleanOutput s.data)

/-! ## TUI Noise Filter (`normalizeToolCallLine`, `stripTuiElements`)

Source: `src/adapters/claudeCliAdapter.ts` lines 131–150 and 183–227. -/

/-- JS `\w`: `[A-Za-z0-9_]`. -/
def isWordChar (c : Char) : Bool :=
  ('a' ≤ c && c ≤ 'z') || ('A' ≤ c && c ≤ 'Z') || ('0' ≤ c && c ≤ '9') || c = '_'

/-- Search for a position satisfying `p` reachable across `.*` (characters a
JS `.` can match). -/
def searchDotP (p : List Char → Bool) : List Char → Bool
  | [] => p []
  | c :: cs => p (c :: cs) || (!isLineTerm c && searchDotP p cs)

/-- The tool-verb allow-list of `toolPattern`, lower-cased for `/i`. -/
def toolNames : List (List Char) :=
  ["bash".data, "read".data, "write".data, "edit".data, "glob".data,
   "grep".data, "task".data, "todowrite".data, "webfetch".data, "websearch".data]

/-- Test `(Bash|Read|…)\s*\(` at the start of `cs` (case-insensitive). -/
def toolHeadTest (cs : List Char) : Bool :=
  toolNames.any fun nm =>
    match ciStrip nm cs with
    | some r => (r.dropWhile isJsWs).head? == some '('
    | none => false

/-- Test `^([●○])\s*(tool)\s*\(` on an already trimmed line. -/
def bulletToolTest (t : List Char) : Bool :=
  match t with
  | b :: rest => (b = '●' || b = '○') && toolHeadTest (rest.dropWhile isJsWs)
  | [] => false

/-- Test `^[●○]?\s*(tool)\s*\(` on an already trimmed line (the `isToolCall`
check of `stripTuiElements`); since the line is trimmed, the no-bullet
branch starts directly at the tool name. -/
def isToolCallLine (t : List Char) : Bool := bulletToolTest t || toolHeadTest t

/-- Model of `normalizeToolCallLine` (claudeCliAdapter.ts:131–150). -/
def normalizeToolCallLine (l : List Char) : List Char :=
  let t := jsTrim l
  match t with
  | b :: rest =>
    if (b = '●' || b = '○') && toolHeadTest (rest.dropWhile isJsWs) then
      (if b = '●' then '⏳' else '✓') :: ' ' :: rest.dropWhile isJsWs
    else if toolHeadTest t then '✓' :: ' ' :: t
    else l
  | [] => l

/-- Glyphs of the spinner-only-line class `[\s·✽✢✶✻⏵❯─━↵]`. -/
def spinnerGlyph (c : Char) : Bool :=
  c = '·' || c = '✽' || c = '✢' || c = '✶' || c = '✻' || c = '⏵' ||
  c = '❯' || c = '─' || c = '━' || c = '↵'

/-- Box-drawing glyphs `[╭─╮│╰╯]`. -/
def boxGlyph (c : Char) : Bool :=
  c = '╭' || c = '─' || c = '╮' || c = '│' || c = '╰' || c = '╯'

/-- Block-art glyphs `[▐▛▜▌▝▘█▀▄░▒▓]`. -/
def blockGlyph (c : Char) : Bool :=
  c = '▐' || c = '▛' || c = '▜' || c = '▌' || c = '▝' || c = '▘' ||
  c = '█' || c = '▀' || c = '▄' || c = '░' || c = '▒' || c = '▓'

/-- Tail `\s*(on|off)` of the bypass-permissions banner pattern. -/
def bypassTail (r : List Char) : Bool :=
  let r3 := r.dropWhile isJsWs
  (ciStrip "on".data r3).isSome || (ciStrip "off".data r3).isSome

/-- Attempt `⏵⏵\s*(bypass permissions|accept edits)\s*(on|off)` (under `/i`)
at this position. -/
def tryBypass : List Char → Bool
  | c1 :: c2 :: r =>
    c1 = '⏵' && c2 = '⏵' &&
      (let r1 := r.dropWhile isJsWs
       (match ciStrip "bypass permissions".data r1 with
         | some r2 => bypassTail r2
         | none => false) ||
       (match ciStrip "accept edits".data r1 with
         | some r2 => bypassTail r2
         | none => false))
  | _ => false

/-- Test `/ctrl\+c.*to interrupt/i`. -/
def ctrlCInterrupt (l : List Char) : Bool :=
  l.tails.any fun tl =>
    match ciStrip "ctrl+c".data tl with
    | some r => containsFromDot "to interrupt".data r
    | none => false

/-- Test `/Run.*install.*or see/i`. -/
def runInstallOrSee (l : List Char) : Bool :=
  l.tails.any fun tl =>
    match ciStrip "run".data tl with
    | some r =>
      searchDotP (fun t2 =>
        match ciStrip "install".data t2 with
        | some r2 => containsFromDot "or see".data r2
        | none => false) r
    | none => false

/-- Test `/more options\.?\s*$/i` on a trimmed line (the trailing `\s*` is
vacuous after trimming). -/
def moreOptionsTest (t : List Char) : Bool :=
  let r := (t.map Char.toLower).reverse
  ("more options".data.reverse.isPrefixOf r) ||
  ("more options.".data.reverse.isPrefixOf r)

/-- Test `/^←.*→\s*$/` on a trimmed line. -/
def tabNavTest (t : List Char) : Bool :=
  match t with
  | c :: rest =>
    c = '←' &&
      (match rest.reverse with
        | c2 :: mid => c2 = '→' && mid.all (fun x => !isLineTerm x)
        | [] => false)
  | [] => false

/-- Test `/Welcome\s*back/i`. -/
def welcomeBackTest (l : List Char) : Bool :=
  l.tails.any fun tl =>
    match ciStrip "welcome".data tl with
    | some r => (ciStrip "back".data (r.dropWhile isJsWs)).isSome
    | none => false

/-- Attempt `\d+[smh]\s+ago\s+` (under `/i`) at this position. -/
def agoSigAt (t : List Char) : Bool :=
  let d := t.takeWhile Char.isDigit
  !d.isEmpty &&
    (match t.drop d.length with
      | c :: rest =>
        (c.toLower = 's' || c.toLower = 'm' || c.toLower = 'h') &&
          (let w := rest.takeWhile isJsWs
           !w.isEmpty &&
             (match ciStrip "ago".data (rest.drop w.length) with
               | some r2 => !(r2.takeWhile isJsWs).isEmpty
               | none => false))
      | [] => false)

/-- Test `/^\s*│.*\d+[smh]\s+ago\s+/i`. -/
def activityRowTest (l : List Char) : Bool :=
  match l.dropWhile isJsWs with
  | c :: rest => c = '│' && searchDotP agoSigAt rest
  | [] => false

/-- Test `/^\s*│.*[─]+\s*│\s*$/`, parsed from the right: trailing whitespace,
a `│`, whitespace, at least one `─`, with a `.*`-matchable middle back to the
opening `│`. -/
def tableRowTest (l : List Char) : Bool :=
  match l.dropWhile isJsWs with
  | c :: rest =>
    c = '│' &&
      (match rest.reverse.dropWhile isJsWs with
        | c2 :: rev2 =>
          c2 = '│' &&
            (match rev2.dropWhile isJsWs with
              | c3 :: rev4 => c3 = '─' && rev4.all (fun x => !isLineTerm x)
              | [] => false)
        | [] => false)
  | [] => false

/-- One iteration of the `stripTuiElements` line loop: `none` means the line
is suppressed (`continue` in the source); otherwise the (possibly
tool-call-normalized) line is kept.  The tests appear in source order. -/
def keepTuiLine (l : List Char) : Option (List Char) :=
  let t := jsTrim l
  if !t.isEmpty && t.all (fun c => c = '─' || c = '━') then none
  else if l.tails.any tryBypass then none
  else if l.head? == some '❯' then none
  else if containsCI "(shift+tab to cycle)".data l then none
  else if !l.isEmpty && l.all (fun c => isJsWs c || spinnerGlyph c) then none
  else
    let isTool := isToolCallLine t
    if !isTool && ctrlCInterrupt l then none
    else if containsCI "claude code has switched".data l ||
            containsCI "native installer".data l || runInstallOrSee l then none
    else if (ciStrip "install".data t).isSome then none
    else if containsCI "docs.anthropic.com".data l then none
    else if moreOptionsTest t && t.length < 20 then none
    else if !t.isEmpty && t.all (fun c => boxGlyph c || isJsWs c) then none
    else if !t.isEmpty && t.all (fun c => blockGlyph c || isJsWs c) then none
    else if tabNavTest t then none
    else if containsCI "enter to select".data l then none
    else if containsCI "recent activity".data l || containsCI "what\x27s new".data l ||
            containsCI "/resume for more".data l then none
    else if welcomeBackTest l then none
    else if l.any boxGlyph && 50 < t.length then none
    else if activityRowTest l then none
    else if tableRowTest l then none
    else some (if isTool then normalizeToolCallLine l else l)

/-- Model of `stripTuiElements` (claudeCliAdapter.ts:183–227). -/
def stripTuiElements (cs : List Char) : List Char :=
  jsTrim (collapseNl (joinNl ((splitNl cs).filterMap keepTuiLine)))

/-- String-level wrapper of `stripTuiElements`. -/
def stripTuiElementsS (s : String) : String := String.mk (stripTuiElements s.data)

/-! ## Status/Output Classifier (`checkIsStatusOutput`)

Source: `src/adapters/claudeCliAdapter.ts` lines 160–181. -/

/-- Test `/^[├└│─]/`: tree-drawing prefix. -/
def treeLineTest (t : List Char) : Bool :=
  t.head? == some '├' || t.head? == some '└' || t.head? == some '│' || t.head? == some '─'

/-- Attempt alternative `\d+[smh]\b.*[·↓]` (under `/i`) starting here. -/
def timeSigAt (tl : List Char) : Bool :=
  let d := tl.takeWhile Char.isDigit
  !d.isEmpty &&
    (match tl.drop d.length with
      | c :: rest =>
        (c.toLower = 's' || c.toLower = 'm' || c.toLower = 'h') &&
          (match rest with
            | [] => true
            | c2 :: _ => !isWordChar c2) &&
          hasCharAfterDots ['·', '↓'] rest
      | [] => false)

/-- Attempt alternative `↓\s*[\d.]+k?\s*tokens` (under `/i`) starting here. -/
def tokensSigAt : List Char → Bool
  | c :: r =>
    c = '↓' &&
      (let r1 := r.dropWhile isJsWs
       let d := r1.takeWhile fun x => x.isDigit || x = '.'
       !d.isEmpty &&
         (let r2 := r1.drop d.length
          let r3 := if (r2.head?.map Char.toLower) == some 'k' then r2.drop 1 else r2
          (ciStrip "tokens".data (r3.dropWhile isJsWs)).isSome))
  | [] => false

/-- Test `/\d+[smh]\b.*[·↓]|↓\s*[\d.]+k?\s*tokens|thought for \d/i`. -/
def progressSigTest (t : List Char) : Bool :=
  (t.tails.any timeSigAt) || (t.tails.any tokensSigAt) ||
  (t.tails.any fun tl =>
    match ciStrip "thought for ".data tl with
    | some r => r.head?.elim false Char.isDigit
    | none => false)

/-- Letters of the class `[а-яёa-z]` under `/i`: Latin and Cyrillic, both
cases. -/
def isWordLetterRu (c : Char) : Bool :=
  ('a' ≤ c && c ≤ 'z') || ('A' ≤ c && c ≤ 'Z') ||
  (0x430 ≤ c.toNat && c.toNat ≤ 0x44f) || (0x410 ≤ c.toNat && c.toNat ≤ 0x42f) ||
  c.toNat = 0x451 || c.toNat = 0x401

/-- Test `/[а-яёa-z]{3,}\s+[а-яёa-z]{3,}/i`: two adjacent words of three or
more letters. -/
def twoAdjacentWords (t : List Char) : Bool :=
  t.tails.any fun tl =>
    let w1 := tl.takeWhile isWordLetterRu
    3 ≤ w1.length &&
      (let r1 := tl.drop w1.length
       let ws := r1.takeWhile isJsWs
       !ws.isEmpty && 3 ≤ ((r1.drop ws.length).takeWhile isWordLetterRu).length)

/-- The per-line "looks transient" disjunction of `checkIsStatusOutput`. -/
def looksTransientLine (line : List Char) : Bool :=
  let t := jsTrim line
  treeLineTest t || t.contains '…' || progressSigTest t ||
  (t.length < 40 && !twoAdjacentWords t)

/-- Model of `checkIsStatusOutput` (claudeCliAdapter.ts:160–181). -/
def checkIsStatusOutput (cs : List Char) : Bool :=
  if 200 < cs.length then false
  else
    let lines := (splitNl cs).filter fun l => !(jsTrim l).isEmpty
    if lines.isEmpty then false
    else if 3 < lines.length then false
    else lines.all looksTransientLine

/-- String-level wrapper of `checkIsStatusOutput`. -/
def checkIsStatusOutputS (s : String) : Bool := checkIsStatusOutput s.data

/-! ## Incremental Diff Engine (`getNewContent`)

Source: `src/adapters/claudeCliAdapter.ts` lines 570–607. -/

/-- Model of `normalizeForComparison`: trim, then strip one leading status
glyph `[●○⏳✓]` and the whitespace after it. -/
def normalizeForComparison (line : List Char) : List Char :=
  let t := jsTrim line
  match t with
  | c :: rest =>
    if c = '●' || c = '○' || c = '⏳' || c = '✓' then rest.dropWhile isJsWs else t
  | [] => t

/-- The walk over the new snapshot's lines: consume an unused old copy of the
comparison-normalized line if one remains, otherwise emit the original line.
`used` accumulates the consumed normalized lines. -/
def diffWalk (oldNorms : List (List Char)) : List (List Char) → List (List Char) → List (List Char)
  | [], _ => []
  | line :: rest, used =>
    let n := normalizeForComparison line
    if n.isEmpty then diffWalk oldNorms rest used
    else if used.count n < oldNorms.count n then diffWalk oldNorms rest (n :: used)
    else line :: diffWalk oldNorms rest used

/-- Model of `getNewContent` (claudeCliAdapter.ts:574–607). -/
def getNewContent (oldC newC : List Char) : List Char :=
  if oldC.isEmpty then newC
  else if oldC = newC then []
  else
    let oldNorms := ((splitNl oldC).map normalizeForComparison).filter fun n => !n.isEmpty
    jsTrim (joinNl (diffWalk oldNorms (splitNl newC) []))

/-- String-level wrapper of `getNewContent`. -/
def getNewContentS (oldC newC : String) : String :=
  String.mk (getNewContent oldC.data newC.data)

/-! ## Message splitting and message-id tracking (bot, part of `src/bot.ts`)

Source: the bot file (`splitMessage`, `trackMessageId`). -/

/-- JS `remaining.lastIndexOf('\n', pos)` as an `Option`: the largest index
`≤ pos` holding a newline. -/
def lastNlLe (cs : List Char) (pos : Nat) : Option Nat :=
  ((List.range (min (pos + 1) cs.length)).filter fun j => cs.getD j ' ' == '\n').getLast?

/-- The `while` loop of `splitMessage`.  Fuel is the initial length; every
iteration consumes at least `maxLen / 2` characters (and `maxLen ≥ 2` in all
uses), so the fuel suffices and the fallback branch is unreachable. -/
def splitMessageGo (maxLen : Nat) : Nat → List Char → List (List Char)
  | 0, remaining => if remaining.isEmpty then [] else [remaining]
  | fuel + 1, remaining =>
    if remaining.isEmpty then []
    else if remaining.length ≤ maxLen then [remaining]
    else
      let cutAt :=
        match lastNlLe remaining maxLen with
        | some j => if maxLen < j * 2 then j else maxLen
        | none => maxLen
      let chunk := remaining.take cutAt
      let rest := remaining.drop cutAt
      let rest := if rest.head? == some '\n' then rest.drop 1 else rest
      chunk :: splitMessageGo maxLen fuel rest

/-- Model of `splitMessage` (bot source); `maxMessageLength = 4000`. -/
def splitMessage (text : List Char) (maxLen : Nat := 4000) : List (List Char) :=
  if text.length ≤ maxLen then [text]
  else splitMessageGo maxLen text.length text

/-- Model of `trackMessageId` (bot source): push the id, and when the list
exceeds 500 entries keep only the most recent 500 (`slice(-500)`).  The
persistence side effect (`saveMessageIds`) is outside the model. -/
def trackMessageId (ids : List Nat) (mid : Nat) : List Nat :=
  let ids2 := ids ++ [mid]
  if 500 < ids2.length then ids2.drop (ids2.length - 500) else ids2

/-! ## Durable-output delivery (`sendOutputImmediate`)

Source: the bot file, lines 456–507, with `deleteLoaderMessage` /
`deleteStatusMessage` (also bot source) inlined.  The chat transport is
parameterized by outcomes: one `EditOutcome` for the single possible edit
attempt and a stream of `Option Nat` results for successive `sendChunk`
calls (`some id` = success with the new message id, `none` = failure; the
Markdown→plain-text fallback inside `sendChunk` is abstracted into one
logical send).  Message text/escaping is orthogonal to the claims and not
carried on the actions. -/

inductive EditOutcome where
  /-- The edit succeeded. -/
  | ok
  /-- The edit failed and the error message contains
  `"message is not modified"`. -/
  | errNotModified
  /-- The edit failed with any other error (message gone, expired, …). -/
  | errOther
deriving DecidableEq, Repr

/-- Per-user delivery state (`UserMessageState` in the bot source). -/
structure MsgState where
  lastMessageId : Option Nat
  needsNewMessage : Bool
  messageIds : List Nat
  loaderMessageId : Option Nat
  statusMessageId : Option Nat
deriving DecidableEq, Repr

/-- Outbound chat-transport operations performed by a delivery. -/
inductive DAction where
  /-- A `deleteMessage` call (loader or status message cleanup). -/
  | deleteMsg (id : Nat)
  /-- A `sendMessage` call and its result. -/
  | sendNew (result : Option Nat)
  /-- An `editMessageText` call on message `id` and its outcome. -/
  | editMsg (id : Nat) (outcome : EditOutcome)
deriving DecidableEq, Repr

def DAction.isDelete : DAction → Bool
  | .deleteMsg _ => true
  | _ => false

def DAction.isSendNew : DAction → Bool
  | .sendNew _ => true
  | _ => false

/-- Pop the next transport result for a `sendChunk` call. -/
def takeSend : List (Option Nat) → Option Nat × List (Option Nat)
  | [] => (none, [])
  | r :: rest => (r, rest)

/-- Successful-`sendChunk` bookkeeping shared by all send sites: remember the
id, clear the needs-new flag, record the id in the capped history. -/
def noteSent (st : MsgState) (mid : Nat) : MsgState :=
  { st with lastMessageId := some mid, needsNewMessage := false,
            messageIds := trackMessageId st.messageIds mid }

/-- First-chunk handling of `sendOutputImmediate`: new-vs-edit decision with
the "message is not modified" silent-success and the fallback-to-new on any
other edit failure. -/
def sendFirstChunk (st : MsgState) (edit : EditOutcome) (sends : List (Option Nat)) :
    MsgState × List DAction × List (Option Nat) :=
  if st.needsNewMessage || st.lastMessageId.isNone then
    let (r, rest) := takeSend sends
    match r with
    | some mid => (noteSent st mid, [.sendNew (some mid)], rest)
    | none => (st, [.sendNew none], rest)
  else
    let m := st.lastMessageId.getD 0
    match edit with
    | .ok => (st, [.editMsg m .ok], sends)
    | .errNotModified => (st, [.editMsg m .errNotModified], sends)
    | .errOther =>
      let (r, rest) := takeSend sends
      match r with
      | some mid => (noteSent st mid, [.editMsg m .errOther, .sendNew (some mid)], rest)
      | none => (st, [.editMsg m .errOther, .sendNew none], rest)

/-- Remaining chunks are always sent as new messages. -/
def sendRestChunks (st : MsgState) (sends : List (Option Nat)) :
    Nat → MsgState × List DAction
  | 0 => (st, [])
  | n + 1 =>
    let (r, rest) := takeSend sends
    match r with
    | some mid =>
      let (st', acts) := sendRestChunks (noteSent st mid) rest n
      (st', .sendNew (some mid) :: acts)
    | none =>
      let (st', acts) := sendRestChunks st rest n
      (st', .sendNew none :: acts)

/-- Model of `sendOutputImmediate` (bot source, lines 456–507). -/
def sendOutputImmediate (st : MsgState) (output : List Char) (edit : EditOutcome)
    (sends : List (Option Nat)) : MsgState × List DAction :=
  -- deleteLoaderMessage
  let (st, acts0) :=
    match st.loaderMessageId with
    | some m => ({ st with loaderMessageId := none }, [DAction.deleteMsg m])
    | none => (st, ([] : List DAction))
  -- deleteStatusMessage
  let (st, acts1) :=
    match st.statusMessageId with
    | some m => ({ st with statusMessageId := none }, [DAction.deleteMsg m])
    | none => (st, ([] : List DAction))
  let chunks := splitMessage output
  let (st, acts2, sends) := sendFirstChunk st edit sends
  let (st, acts3) := sendRestChunks st sends (chunks.length - 1)
  (st, acts0 ++ acts1 ++ acts2 ++ acts3)

/-! ## Rate-Limit Governor (`withRateLimitRetry`)

Source: `src/rateLimiter.ts`.  Sequentialized: the operation's outcome at
each attempt, the two jitter draws (`Math.random()` values scaled to the
multiplier `1 + j`, `0 ≤ j < 0.3`) and the clock are explicit parameters.
Times are in milliseconds, as rationals so the ceiling of the jittered wait
is exact. -/

/-- Outcome of one attempt of the wrapped Telegram operation. -/
inductive TgResult (α : Type) where
  /-- Resolved successfully. -/
  | ok (v : α)
  /-- Rejected with a 429 error carrying `parameters.retry_after` seconds
  when present. -/
  | err429 (retryAfter : Option Nat)
  /-- Rejected with any non-429 error. -/
  | errOther
deriving DecidableEq, Repr

/-- Model of `getRetryAfterMs`: `Math.ceil(retryAfterSec * 1000 * jitter)`
with `retry_after ?? 30` and jitter multiplier `1 + j`. -/
def getRetryAfterMs (retryAfter : Option Nat) (j : ℚ) : ℚ :=
  (⌈((retryAfter.getD 30 : ℚ) * 1000) * (1 + j)⌉ : ℤ)

/-- Observable trace of one `withRateLimitRetry` run. -/
structure RLRun (α : Type) where
  /-- `some v` when the wrapped call resolved; `none` when an error
  propagated to the caller. -/
  result : Option α
  /-- Whether a propagated error was a 429. -/
  propagated429 : Bool
  /-- The user's `blockedUntil` cooldown after the run. -/
  blockedUntil : ℚ
  /-- How many times the operation was attempted. -/
  attempts : Nat
  /-- Sleep performed before the first attempt (cooldown wait-out). -/
  preWait : ℚ
  /-- Sleep performed between the two attempts (0 if only one attempt). -/
  retryWait : ℚ
deriving DecidableEq, Repr

/-- Model of `withRateLimitRetry` (rateLimiter.ts:61–99).  `o1`/`o2` are the
outcomes of the first/second attempt, `j1`/`j2` the jitter draws. -/
def withRateLimitRetry {α : Type} (blockedUntil now : ℚ) (o1 o2 : TgResult α)
    (j1 j2 : ℚ) : RLRun α :=
  let preWait := max 0 (blockedUntil - now)
  let t1 := now + preWait
  match o1 with
  | .ok v => ⟨some v, false, blockedUntil, 1, preWait, 0⟩
  | .errOther => ⟨none, false, blockedUntil, 1, preWait, 0⟩
  | .err429 ra =>
    let w := getRetryAfterMs ra j1
    let t2 := t1 + w
    match o2 with
    | .ok v => ⟨some v, false, 0, 2, preWait, w⟩
    | .errOther => ⟨none, false, t1 + w, 2, preWait, w⟩
    | .err429 ra2 => ⟨none, true, t2 + getRetryAfterMs ra2 j2, 2, preWait, w⟩

/-! ## Delivery Queue (per-user debounced dispatcher)

Source: the bot file — `queueOutput` / `processOutputQueue` (lines 375–422),
`handleAgentOutput` / `handleAgentStatus` (lines 1342–1416).

Small-step machine over one user's queue.  External scheduling (which timer
fires when, when a network call resolves) is an arbitrary event list; events
whose trigger is not armed are no-ops.  A delivery network call
(`sendOutputImmediate` for outputs, the send/edit performed directly by
`handleAgentStatus` for statuses) is treated as one in-flight operation from
the synchronous call that starts it to the resolution of its promise.

* `.arrive s` — an `output` event reaches `queueOutput`: the pending slot is
  overwritten and the debounce timer is cleared and re-armed.
* `.fireDebounce` — an armed debounce timer fires, running
  `processOutputQueue` up to its `await`: if a send is already processing it
  returns at once (the pending text stays); otherwise it claims the pending
  text and starts the send.
* `.fireRedispatch` — an armed `finally`-block `setTimeout` fires, likewise
  running `processOutputQueue`.
* `.completeOutput` — the in-flight output send resolves; the `finally`
  block clears `isProcessing` and, if new text arrived meanwhile, arms a
  redispatch timer.
* `.statusArrive s` — a `status` event reaches `handleAgentStatus`, which
  immediately starts its own send/edit call (no pending slot, no debounce,
  no in-flight guard).
* `.statusComplete` — the oldest in-flight status call resolves. -/

inductive DEv where
  | arrive (s : String)
  | fireDebounce
  | fireRedispatch
  | completeOutput
  | statusArrive (s : String)
  | statusComplete
deriving DecidableEq, Repr

/-- One user's delivery-queue state plus instrumentation: `outInFlight` /
`statusInFlight` hold the payloads of started-but-unresolved delivery calls,
`outSent` / `statusSent` the payloads of resolved ones. -/
structure DState where
  pending : Option String
  processing : Bool
  debounceArmed : Bool
  redispatchArmed : Nat
  outInFlight : List String
  outSent : List String
  statusInFlight : List String
  statusSent : List String
deriving DecidableEq, Repr

def DState.init : DState := ⟨none, false, false, 0, [], [], [], []⟩

/-- The synchronous prefix of `processOutputQueue`: early-return if already
processing or nothing pending, else claim the pending text and start the
send. -/
def startProcess (st : DState) : DState :=
  if st.processing then st
  else
    match st.pending with
    | none => st
    | some x =>
      { st with processing := true, pending := none,
                outInFlight := st.outInFlight ++ [x] }

def dstep (st : DState) : DEv → DState
  | .arrive s => { st with pending := some s, debounceArmed := true }
  | .fireDebounce =>
    if st.debounceArmed then startProcess { st with debounceArmed := false } else st
  | .fireRedispatch =>
    if 0 < st.redispatchArmed then
      startProcess { st with redispatchArmed := st.redispatchArmed - 1 }
    else st
  | .completeOutput =>
    match st.outInFlight with
    | [] => st
    | x :: rest =>
      { st with outInFlight := rest, outSent := st.outSent ++ [x],
                processing := false,
                redispatchArmed :=
                  if st.pending.isSome then st.redispatchArmed + 1
                  else st.redispatchArmed }
  | .statusArrive s => { st with statusInFlight := st.statusInFlight ++ [s] }
  | .statusComplete =>
    match st.statusInFlight with
    | [] => st
    | x :: rest =>
      { st with statusInFlight := rest, statusSent := st.statusSent ++ [x] }

/-- Run a schedule from the initial state. -/
def runD (evs : List DEv) : DState := evs.foldl dstep DState.init

/-- All states visited while running a schedule. -/
def statesD (evs : List DEv) : List DState := evs.scanl dstep DState.init

/-! ## Backend adapters: `stopSession`

Sources: `src/adapters/claudeCliAdapter.ts` lines 323–337 and
`src/adapters/openCodeAdapter.ts` lines 285–304.  Per-adapter session maps
are functions `Nat → Option session`; the effects of a call (emitted events,
tmux commands, HTTP requests, SSE disconnects) are returned explicitly. -/

/-- Events an adapter can emit (only `stopped` is relevant here). -/
inductive AdapterEvent where
  | stopped (userId : Nat)
deriving DecidableEq, Repr

/-- The per-user session record of `ClaudeCliAdapter` (timer handle modelled
as its armed state). -/
structure ClaudeSessionM where
  userId : Nat
  workDir : String
  sessionName : String
  pollTimerArmed : Bool
  lastContent : String
  isActive : Bool
  handledAutoEnter : Bool
  handledAutoAccept : Bool
  lastStatusText : String

/-- Model of `ClaudeCliAdapter.stopSession`: absent session → return with no
effects; otherwise deactivate, clear the timer, kill the tmux session,
remove the record, emit `stopped`.  Returns (new session map, emitted
events, tmux commands issued). -/
def claudeStopSession (sessions : Nat → Option ClaudeSessionM) (userId : Nat) :
    (Nat → Option ClaudeSessionM) × List AdapterEvent × List String :=
  match sessions userId with
  | none => (sessions, [], [])
  | some s =>
    (fun u => if u = userId then none else sessions u,
     [.stopped userId],
     ["kill-session -t " ++ s.sessionName])

/-- The per-user session record of `OpenCodeAdapter` (output debounce timer
modelled as its armed state; `modelOverride` as the optional pair). -/
structure OpenCodeSessionM where
  userId : Nat
  sessionId : String
  workDir : String
  isActive : Bool
  currentResponseText : String
  outputTimerArmed : Bool
  isModelInfoShown : Bool
  modelOverride : Option (String × Option String)
  currentModelLabel : Option String

/-- Model of `OpenCodeAdapter.stopSession`: absent session → return with no
effects; otherwise deactivate, clear the output timer, disconnect the SSE
stream, fire the abort request, remove the record, emit `stopped`.  Returns
(new session map, emitted events, HTTP requests, SSE disconnects). -/
def openCodeStopSession (sessions : Nat → Option OpenCodeSessionM) (userId : Nat) :
    (Nat → Option OpenCodeSessionM) × List AdapterEvent × List String × List Nat :=
  match sessions userId with
  | none => (sessions, [], [], [])
  | some s =>
    (fun u => if u = userId then none else sessions u,
     [.stopped userId],
     ["POST /session/" ++ s.sessionId ++ "/abort"],
     [userId])

/-! ## Claim theorems -/

/-- C3: the incremental diff computes new content as an ordered multiset
difference of non-empty comparison-normalized lines: for old `"A\nB\nC"` and
new `"A\nB\nC\nD"` it returns `"D"`; for old `"A\nB"` and new `"B\nA"`
(pure reorder) it returns `""`; for an empty old snapshot it returns the
entire new snapshot; and for old equal to new it returns no new content. -/
theorem getNewContent_diff_spec :
    (∀ newC : String, getNewContentS "" newC = newC) ∧
    (∀ s : String, getNewContentS s s = "") ∧
    getNewContentS "A\nB\nC" "A\nB\nC\nD" = "D" ∧
    getNewContentS "A\nB" "B\nA" = "" := by
  refine ⟨fun newC => rfl, fun s => ?_, by decide, by decide⟩
  rcases hs : s.data with _ | ⟨c, cs⟩
  · simp [getNewContentS, getNewContent, hs]
  · simp [getNewContentS, getNewContent, hs]

/-- C9: the per-user list of recently sent message ids is bounded: after
every recorded id the list holds at most 500 entries, is a suffix of the old
list extended by the new id (so when the cap is exceeded the oldest entries
are evicted first), and the just-recorded id is its most recent entry. -/
theorem trackMessageId_bounded :
    ∀ (ids : List Nat) (mid : Nat),
      (trackMessageId ids mid).length ≤ 500 ∧
      (trackMessageId ids mid) <:+ (ids ++ [mid]) ∧
      (trackMessageId ids mid).getLast? = some mid := by
  intro ids mid
  unfold trackMessageId
  by_cases h : 500 < (ids ++ [mid]).length
  · simp only [h, if_true]
    refine ⟨?_, List.drop_suffix _ _, ?_⟩
    · rw [List.length_drop]; omega
    · rw [List.getLast?_drop, if_neg (by omega), List.getLast?_concat]
  · simp only [h, if_false]
    exact ⟨by omega, List.suffix_rfl, List.getLast?_concat _⟩

/-- C7: the TUI noise filter rewrites recognized tool-invocation lines by
status icon while preserving the rest of the line verbatim: the input line
`"● Bash(ls -la)"` filters to `"⏳ Bash(ls -la)"`, `"○ Bash(ls -la)"`
filters to `"✓ Bash(ls -la)"`, and a tool line with no bullet gains a
`"✓ "` prefix. -/
theorem toolCallLine_icons :
    stripTuiElementsS "● Bash(ls -la)" = "⏳ Bash(ls -la)" ∧
    stripTuiElementsS "○ Bash(ls -la)" = "✓ Bash(ls -la)" ∧
    (∀ l : List Char, toolHeadTest (jsTrim l) = true → bulletToolTest (jsTrim l) = false →
      normalizeToolCallLine l = '✓' :: ' ' :: jsTrim l) := by
  refine ⟨by decide, by decide, fun l hhead hbullet => ?_⟩
  unfold normalizeToolCallLine
  rcases ht : jsTrim l with _ | ⟨b, rest⟩
  · rw [ht] at hhead; exact absurd hhead (by decide)
  · rw [ht] at hhead hbullet
    simp only [bulletToolTest, Bool.and_eq_false_iff] at hbullet
    simp only
    rcases hbullet with hb | hb
    · rw [hb]; simp [hhead]
    · rw [hb]; simp [hhead]

/-- C10: for every user id with no tracked session, `stopSession` in both
backend adapters is a no-op: it returns without emitting any event and
without modifying adapter state or issuing external commands; consequently
`stopSession` is idempotent. -/
theorem stopSession_noop_idem :
    ∀ (cs : Nat → Option ClaudeSessionM) (os : Nat → Option OpenCodeSessionM) (u : Nat),
      (cs u = none → claudeStopSession cs u = (cs, [], [])) ∧
      (os u = none → openCodeStopSession os u = (os, [], [], [])) ∧
      claudeStopSession (claudeStopSession cs u).1 u = ((claudeStopSession cs u).1, [], []) ∧
      openCodeStopSession (openCodeStopSession os u).1 u =
        ((openCodeStopSession os u).1, [], [], []) := by
  intro cs os u
  refine ⟨fun h => by simp [claudeStopSession, h],
          fun h => by simp [openCodeStopSession, h], ?_, ?_⟩
  · rcases h : cs u with _ | s
    · simp [claudeStopSession, h]
    · simp [claudeStopSession, h]
  · rcases h : os u with _ | s
    · simp [openCodeStopSession, h]
    · simp [openCodeStopSession, h]

/-- The inductive invariant of the output queue: at most one output delivery
is in flight, and one is in flight exactly when `isProcessing` is set. -/
theorem startProcess_inv (st : DState)
    (h1 : st.outInFlight.length ≤ 1)
    (h2 : st.processing = true ↔ st.outInFlight.length = 1) :
    (startProcess st).outInFlight.length ≤ 1 ∧
    ((startProcess st).processing = true ↔ (startProcess st).outInFlight.length = 1) := by
  unfold startProcess
  by_cases hp : st.processing
  · rw [if_pos hp]; exact ⟨h1, h2⟩
  · rw [if_neg (by simp [hp])]
    cases hpend : st.pending with
    | none => exact ⟨h1, h2⟩
    | some x =>
      have hz : st.outInFlight.length = 0 := by
        have hne : st.outInFlight.length ≠ 1 := fun hl => hp (h2.mpr hl)
        omega
      have hnil : st.outInFlight = [] := List.length_eq_zero.mp hz
      simp [hnil]

theorem dstep_inv (st : DState) (e : DEv)
    (h1 : st.outInFlight.length ≤ 1)
    (h2 : st.processing = true ↔ st.outInFlight.length = 1) :
    (dstep st e).outInFlight.length ≤ 1 ∧
    ((dstep st e).processing = true ↔ (dstep st e).outInFlight.length = 1) := by
  cases e with
  | arrive s => exact ⟨h1, h2⟩
  | fireDebounce =>
    by_cases hd : st.debounceArmed
    · simp only [dstep, hd, if_true]
      exact startProcess_inv _ h1 h2
    · simp only [dstep, hd, Bool.false_eq_true, if_false]
      exact ⟨h1, h2⟩
  | fireRedispatch =>
    by_cases hr : 0 < st.redispatchArmed
    · simp only [dstep, hr, if_true]
      exact startProcess_inv _ h1 h2
    · simp only [dstep, hr, if_false]
      exact ⟨h1, h2⟩
  | completeOutput =>
    cases hfl : st.outInFlight with
    | nil => simp only [dstep, hfl]; rw [hfl] at h1 h2; exact ⟨h1, h2⟩
    | cons x rest =>
      rw [hfl] at h1 h2
      have hrest : rest = [] := by
        cases rest with
        | nil => rfl
        | cons z zs => simp at h1
      subst hrest
      simp [dstep, hfl]
  | statusArrive s => exact ⟨h1, h2⟩
  | statusComplete =>
    cases hfl : st.statusInFlight with
    | nil => simp only [dstep, hfl]; exact ⟨h1, h2⟩
    | cons x rest => simp only [dstep, hfl]; exact ⟨h1, h2⟩

theorem statesD_inv_from (evs : List DEv) :
    ∀ st : DState,
      st.outInFlight.length ≤ 1 →
      (st.processing = true ↔ st.outInFlight.length = 1) →
      ((evs.scanl dstep st).all fun s => decide (s.outInFlight.length ≤ 1)) = true := by
  induction evs with
  | nil => intro st h1 _; simp [List.scanl_nil, h1]
  | cons e evs ih =>
    intro st h1 h2
    rw [List.scanl_cons]
    have hstep := dstep_inv st e h1 h2
    have hrest := ih (dstep st e) hstep.1 hstep.2
    simp [hrest, h1]

/-- C2 (amended): at most one *output* delivery network call is in flight per
user at any time, over every schedule of events; if the debounce timer fires
while a previous output send is still in progress, no second output call is
started — the pending text is kept and redispatched after the first call
completes.  (Status deliveries run outside this queue; see the
counterexample.) -/
theorem singleInflight_outputQueue :
    (∀ evs : List DEv,
       ((statesD evs).all fun st => decide (st.outInFlight.length ≤ 1)) = true) ∧
    runD [.arrive "a", .fireDebounce, .arrive "b", .fireDebounce] =
      ⟨some "b", true, false, 0, ["a"], [], [], []⟩ ∧
    runD [.arrive "a", .fireDebounce, .arrive "b", .fireDebounce, .completeOutput,
          .fireRedispatch, .completeOutput] =
      ⟨none, false, false, 0, [], ["a", "b"], [], []⟩ := by
  refine ⟨fun evs => statesD_inv_from evs DState.init (by simp [DState.init]) ?_, rfl, rfl⟩
  simp [DState.init]

/-- C2 counterexample: a status event arriving while an output send is in
flight immediately starts a second, concurrent delivery network call for the
same user — two outbound calls are in flight at once, refuting the claimed
"at most one outbound delivery network call per user" over all event kinds. -/
theorem concurrentDelivery_counterexample :
    (runD [.arrive "a", .fireDebounce, .statusArrive "s"]).outInFlight = ["a"] ∧
    (runD [.arrive "a", .fireDebounce, .statusArrive "s"]).statusInFlight = ["s"] ∧
    (runD [.arrive "a", .fireDebounce, .statusArrive "s"]).outInFlight.length +
      (runD [.arrive "a", .fireDebounce, .statusArrive "s"]).statusInFlight.length = 2 :=
  ⟨rfl, rfl, rfl⟩

/-- Folding any non-empty burst of `output` arrivals: each one overwrites the
pending slot and re-arms the debounce timer, so only the last text remains
pending. -/
theorem arrive_fold (ts : List String) (st : DState) (h : ts ≠ []) :
    (ts.map DEv.arrive).foldl dstep st =
      { st with pending := some (ts.getLast h), debounceArmed := true } := by
  induction ts generalizing st with
  | nil => exact absurd rfl h
  | cons x tl ih =>
    cases tl with
    | nil => rfl
    | cons y tl' =>
      rw [List.map_cons, List.foldl_cons, ih (dstep st (DEv.arrive x)) (by simp)]
      rfl

/-- C1 (amended): every incoming `output` event overwrites the user's single
pending-text slot (latest value wins) and (re)starts the debounce timer, so
a burst of output events within one debounce window results in exactly one
outbound send call, carrying only the last event's text; intermediate output
values are never delivered.  (`status` events bypass this queue; see the
counterexample.) -/
theorem outputCoalescing_lastWins :
    (∀ (st : DState) (s : String),
       (dstep st (.arrive s)).pending = some s ∧
       (dstep st (.arrive s)).debounceArmed = true) ∧
    (∀ (ts : List String) (h : ts ≠ []),
       runD (ts.map DEv.arrive ++ [DEv.fireDebounce, DEv.completeOutput]) =
         ⟨none, false, false, 0, [], [ts.getLast h], [], []⟩) := by
  refine ⟨fun st s => ⟨rfl, rfl⟩, fun ts h => ?_⟩
  unfold runD
  rw [List.foldl_append, arrive_fold ts DState.init h]
  rfl

/-- Witness for `outputCoalescing_lastWins` at a concrete three-event burst:
one send, carrying `"three"`. -/
theorem outputCoalescing_lastWins_witness :
    runD [DEv.arrive "one", DEv.arrive "two", DEv.arrive "three",
          DEv.fireDebounce, DEv.completeOutput] =
      ⟨none, false, false, 0, [], ["three"], [], []⟩ := by
  have := outputCoalescing_lastWins.2 ["one", "two", "three"] (by simp)
  simpa using this

/-- C1 counterexample: two `status` events in the same debounce window each
start their own delivery call immediately — the pending-text slot is never
written, no debounce timer is started, and both texts (including the
intermediate `"a"`) are put on the wire, refuting "exactly one outbound call
carrying only the last event's text" for status events. -/
theorem statusBypass_counterexample :
    (runD [.statusArrive "a", .statusArrive "b"]).statusInFlight = ["a", "b"] ∧
    (runD [.statusArrive "a", .statusArrive "b"]).pending = none ∧
    (runD [.statusArrive "a", .statusArrive "b"]).debounceArmed = false :=
  ⟨rfl, rfl, rfl⟩

/-- C4: on a 429 failure the rate-limit wrapper waits the server-provided
`retry_after` seconds times a jitter multiplier `1 + j ∈ [1.0, 1.3]`
(converted to milliseconds and rounded up), sets the user's cooldown to the
attempt time plus that wait, and retries exactly once; a second consecutive
429 sets a fresh cooldown and propagates the failure with no third attempt;
a non-429 failure propagates immediately without touching the cooldown. -/
theorem withRateLimitRetry_spec :
    ∀ (α : Type) (b now : ℚ) (ra : Nat) (o2 : TgResult α) (j1 j2 : ℚ),
      0 ≤ j1 → j1 ≤ 3 / 10 →
      ((withRateLimitRetry b now (.err429 (some ra)) o2 j1 j2).attempts = 2 ∧
       (withRateLimitRetry b now (.err429 (some ra)) o2 j1 j2).retryWait =
         ((⌈((ra : ℚ) * 1000) * (1 + j1)⌉ : ℤ) : ℚ) ∧
       ((ra : ℚ) * 1000 ≤ (withRateLimitRetry b now (.err429 (some ra)) o2 j1 j2).retryWait ∧
        (withRateLimitRetry b now (.err429 (some ra)) o2 j1 j2).retryWait ≤
          ((⌈((ra : ℚ) * 1000) * (13 / 10)⌉ : ℤ) : ℚ)) ∧
       (o2 = .errOther →
         (withRateLimitRetry b now (.err429 (some ra)) o2 j1 j2).blockedUntil =
           now + (withRateLimitRetry b now (.err429 (some ra)) o2 j1 j2).preWait +
             (withRateLimitRetry b now (.err429 (some ra)) o2 j1 j2).retryWait) ∧
       (∀ ra2, o2 = .err429 ra2 →
         (withRateLimitRetry b now (.err429 (some ra)) o2 j1 j2).result = none ∧
         (withRateLimitRetry b now (.err429 (some ra)) o2 j1 j2).propagated429 = true ∧
         (withRateLimitRetry b now (.err429 (some ra)) o2 j1 j2).blockedUntil =
           now + (withRateLimitRetry b now (.err429 (some ra)) o2 j1 j2).preWait +
             (withRateLimitRetry b now (.err429 (some ra)) o2 j1 j2).retryWait +
             getRetryAfterMs ra2 j2)) ∧
      ((withRateLimitRetry b now (.errOther : TgResult α) o2 j1 j2).result = none ∧
       (withRateLimitRetry b now (.errOther : TgResult α) o2 j1 j2).blockedUntil = b ∧
       (withRateLimitRetry b now (.errOther : TgResult α) o2 j1 j2).attempts = 1 ∧
       (withRateLimitRetry b now (.errOther : TgResult α) o2 j1 j2).retryWait = 0) := by
  intro α b now ra o2 j1 j2 hj0 hj1
  have hra : (0 : ℚ) ≤ (ra : ℚ) * 1000 := by positivity
  have hwait : (ra : ℚ) * 1000 ≤ ((ra : ℚ) * 1000) * (1 + j1) := by nlinarith
  have hupper : ((ra : ℚ) * 1000) * (1 + j1) ≤ ((ra : ℚ) * 1000) * (13 / 10) := by nlinarith
  have hlow : (ra : ℚ) * 1000 ≤ ((⌈((ra : ℚ) * 1000) * (1 + j1)⌉ : ℤ) : ℚ) :=
    le_trans hwait (Int.le_ceil _)
  cases o2 with
  | ok v =>
    refine ⟨⟨rfl, ?_, ⟨?_, ?_⟩, ?_, ?_⟩, rfl, rfl, rfl, rfl⟩
    · simp [withRateLimitRetry, getRetryAfterMs]
    · simpa [withRateLimitRetry, getRetryAfterMs] using hlow
    · simp only [withRateLimitRetry, getRetryAfterMs, Option.getD_some]
      exact_mod_cast Int.ceil_le_ceil hupper
    · intro h; cases h
    · intro ra2 h; cases h
  | err429 ra2 =>
    refine ⟨⟨rfl, ?_, ⟨?_, ?_⟩, ?_, ?_⟩, rfl, rfl, rfl, rfl⟩
    · simp [withRateLimitRetry, getRetryAfterMs]
    · simpa [withRateLimitRetry, getRetryAfterMs] using hlow
    · simp only [withRateLimitRetry, getRetryAfterMs, Option.getD_some]
      exact_mod_cast Int.ceil_le_ceil hupper
    · intro h; cases h
    · intro ra2' h
      cases h
      refine ⟨rfl, rfl, ?_⟩
      simp only [withRateLimitRetry, getRetryAfterMs, Option.getD_some]
  | errOther =>
    refine ⟨⟨rfl, ?_, ⟨?_, ?_⟩, ?_, ?_⟩, rfl, rfl, rfl, rfl⟩
    · simp [withRateLimitRetry, getRetryAfterMs]
    · simpa [withRateLimitRetry, getRetryAfterMs] using hlow
    · simp only [withRateLimitRetry, getRetryAfterMs, Option.getD_some]
      exact_mod_cast Int.ceil_le_ceil hupper
    · intro h
      simp only [withRateLimitRetry, getRetryAfterMs, Option.getD_some]
    · intro ra2 h; cases h

/-- C5: the status/output classifier classifies any chunk exceeding 200
characters as output, any chunk with more than 3 non-empty lines as output,
and otherwise (given the classifier's non-empty input: at least one
non-empty line) classifies the chunk as status if and only if every
non-empty line matches at least one transient shape (tree-drawing prefix,
ellipsis character, time/token progress signature, or a line under 40
characters lacking two adjacent words of 3+ letters) — the disjunction
`looksTransientLine`. -/
theorem checkIsStatusOutput_spec :
    ∀ cs : List Char,
      ((splitNl cs).filter fun l => !(jsTrim l).isEmpty) ≠ [] →
      ((200 < cs.length → checkIsStatusOutput cs = false) ∧
       (3 < ((splitNl cs).filter fun l => !(jsTrim l).isEmpty).length →
         checkIsStatusOutput cs = false) ∧
       (checkIsStatusOutput cs = true ↔
         (cs.length ≤ 200 ∧
          ((splitNl cs).filter fun l => !(jsTrim l).isEmpty).length ≤ 3 ∧
          ∀ l ∈ (splitNl cs).filter fun l' => !(jsTrim l').isEmpty,
            looksTransientLine l = true))) := by
  intro cs hne
  have hempty : ((splitNl cs).filter fun l => !(jsTrim l).isEmpty).isEmpty = false := by
    rcases h : (splitNl cs).filter fun l => !(jsTrim l).isEmpty with _ | ⟨a, as⟩
    · exact absurd h hne
    · rfl
  by_cases hlen : 200 < cs.length
  · refine ⟨fun _ => by simp [checkIsStatusOutput, hlen],
            fun _ => by simp [checkIsStatusOutput, hlen], ?_⟩
    simp only [checkIsStatusOutput, hlen, if_true]
    constructor
    · intro h; exact absurd h (by simp)
    · rintro ⟨h1, -, -⟩; omega
  · by_cases h3 : 3 < ((splitNl cs).filter fun l => !(jsTrim l).isEmpty).length
    · refine ⟨fun h => absurd h hlen, fun _ => ?_, ?_⟩
      · simp [checkIsStatusOutput, hlen, hempty, h3]
      · simp only [checkIsStatusOutput, hlen, if_false, hempty, h3, if_true,
          Bool.false_eq_true]
        constructor
        · intro h; exact absurd h (by simp)
        · rintro ⟨-, h2, -⟩; omega
    · refine ⟨fun h => absurd h hlen, fun h => absurd h h3, ?_⟩
      have hle : cs.length ≤ 200 := Nat.not_lt.mp hlen
      have hle3 : ((splitNl cs).filter fun l => !(jsTrim l).isEmpty).length ≤ 3 :=
        Nat.not_lt.mp h3
      simp [checkIsStatusOutput, hlen, hempty, h3, List.all_eq_true, hle, hle3]
      constructor
      · intro h l hl hne'
        exact (h l hl).resolve_left hne'
      · intro h l hl
        by_cases hz : jsTrim l = []
        · exact Or.inl hz
        · exact Or.inr (h l hl hz)

/-- Delivery state after the loader/status cleanup at the top of
`sendOutputImmediate`. -/
def msgCleared (st : MsgState) : MsgState :=
  { st with loaderMessageId := none, statusMessageId := none }

/-- Unfolding of `sendOutputImmediate` into cleanup actions, first-chunk
handling and remaining-chunk handling. -/
theorem sendOutputImmediate_eq (st : MsgState) (output : List Char) (edit : EditOutcome)
    (sends : List (Option Nat)) :
    sendOutputImmediate st output edit sends =
      ((sendRestChunks (sendFirstChunk (msgCleared st) edit sends).1
          (sendFirstChunk (msgCleared st) edit sends).2.2
          ((splitMessage output).length - 1)).1,
       ((match st.loaderMessageId with
          | some m => [DAction.deleteMsg m] | none => ([] : List DAction)) ++
        (match st.statusMessageId with
          | some m => [DAction.deleteMsg m] | none => ([] : List DAction))) ++
       (sendFirstChunk (msgCleared st) edit sends).2.1 ++
       (sendRestChunks (sendFirstChunk (msgCleared st) edit sends).1
          (sendFirstChunk (msgCleared st) edit sends).2.2
          ((splitMessage output).length - 1)).2) := by
  obtain ⟨lmid, nnm, mids, loader, statusm⟩ := st
  rcases hfc : sendFirstChunk (msgCleared ⟨lmid, nnm, mids, loader, statusm⟩) edit sends
    with ⟨st1, acts2, sends'⟩
  rcases hrc : sendRestChunks st1 sends' ((splitMessage output).length - 1)
    with ⟨st2, acts3⟩
  rcases loader with _ | lm <;> rcases statusm with _ | sm <;>
    simp_all [sendOutputImmediate, msgCleared]

/-- When the needs-new flag is set or there is no prior message id, the first
chunk goes out as a new message. -/
theorem sendFirstChunk_sendNew (st : MsgState) (edit : EditOutcome)
    (sends : List (Option Nat))
    (h : (st.needsNewMessage || st.lastMessageId.isNone) = true) :
    ∃ st' r rest, sendFirstChunk st edit sends = (st', [.sendNew r], rest) := by
  unfold sendFirstChunk
  rw [if_pos h]
  rcases sends with _ | ⟨r0, rest⟩
  · exact ⟨_, none, _, rfl⟩
  · cases r0 with
    | none => exact ⟨_, none, _, rfl⟩
    | some mid => exact ⟨_, some mid, _, rfl⟩

/-- Otherwise the first chunk is an edit of the most recent message. -/
theorem sendFirstChunk_edit (st : MsgState) (edit : EditOutcome)
    (sends : List (Option Nat)) (m : Nat)
    (h1 : st.needsNewMessage = false) (h2 : st.lastMessageId = some m) :
    ∃ st' tail rest, sendFirstChunk st edit sends = (st', .editMsg m edit :: tail, rest) := by
  unfold sendFirstChunk
  rw [if_neg (by simp [h1, h2])]
  rw [h2]
  cases edit with
  | ok => exact ⟨_, [], _, rfl⟩
  | errNotModified => exact ⟨_, [], _, rfl⟩
  | errOther =>
    rcases sends with _ | ⟨r0, rest⟩
    · exact ⟨_, [.sendNew none], _, rfl⟩
    · cases r0 with
      | none => exact ⟨_, [.sendNew none], _, rfl⟩
      | some mid => exact ⟨_, [.sendNew (some mid)], _, rfl⟩

/-- A failed (non-"not modified") edit falls back to a new send. -/
theorem sendFirstChunk_fallback (st : MsgState) (sends : List (Option Nat)) (m : Nat)
    (h1 : st.needsNewMessage = false) (h2 : st.lastMessageId = some m) :
    ∃ st' r rest,
      sendFirstChunk st .errOther sends = (st', [.editMsg m .errOther, .sendNew r], rest) := by
  unfold sendFirstChunk
  rw [if_neg (by simp [h1, h2])]
  rw [h2]
  rcases sends with _ | ⟨r0, rest⟩
  · exact ⟨_, none, _, rfl⟩
  · cases r0 with
    | none => exact ⟨_, none, _, rfl⟩
    | some mid => exact ⟨_, some mid, _, rfl⟩

/-- A "message is not modified" edit failure is silent success: no further
action, state untouched. -/
theorem sendFirstChunk_notModified (st : MsgState) (sends : List (Option Nat)) (m : Nat)
    (h1 : st.needsNewMessage = false) (h2 : st.lastMessageId = some m) :
    sendFirstChunk st .errNotModified sends = (st, [.editMsg m .errNotModified], sends) := by
  unfold sendFirstChunk
  rw [if_neg (by simp [h1, h2])]
  rw [h2]
  rfl

/-- C6: for every durable output delivery, if the user's needs-new-message
flag is set or no prior message id exists, a new chat message is sent;
otherwise the most recent message is edited in place; if the edit fails
other than with "message is not modified" (message gone/expired), delivery
falls back to sending a new message; and a "message is not modified" edit
failure is treated as silent success — no new message is sent, the state is
untouched, and no error is surfaced. -/
theorem sendOutputImmediate_newVsEdit :
    ∀ (st : MsgState) (output : List Char) (edit : EditOutcome) (sends : List (Option Nat)),
      ((st.needsNewMessage = true ∨ st.lastMessageId = none) →
        ∃ r, ((sendOutputImmediate st output edit sends).2.filter
                fun a => !a.isDelete).head? = some (.sendNew r)) ∧
      (∀ m, st.needsNewMessage = false → st.lastMessageId = some m →
        (((sendOutputImmediate st output edit sends).2.filter
            fun a => !a.isDelete).head? = some (.editMsg m edit))) ∧
      (∀ m, st.needsNewMessage = false → st.lastMessageId = some m → edit = .errOther →
        ∃ r, DAction.sendNew r ∈ (sendOutputImmediate st output edit sends).2) ∧
      (∀ m, st.needsNewMessage = false → st.lastMessageId = some m →
        edit = .errNotModified → output.length ≤ 4000 →
        ((sendOutputImmediate st output edit sends).2.filter
            fun a => !a.isDelete) = [.editMsg m .errNotModified] ∧
        (sendOutputImmediate st output edit sends).1.lastMessageId = some m ∧
        (sendOutputImmediate st output edit sends).1.messageIds = st.messageIds) := by
  intro st output edit sends
  have heq := sendOutputImmediate_eq st output edit sends
  have hdel : ((match st.loaderMessageId with
      | some m => [DAction.deleteMsg m] | none => ([] : List DAction)) ++
      (match st.statusMessageId with
      | some m => [DAction.deleteMsg m] | none => ([] : List DAction))).filter
        (fun a : DAction => !a.isDelete) = [] := by
    rcases st.loaderMessageId with _ | lm <;> rcases st.statusMessageId with _ | sm <;> rfl
  refine ⟨?_, ?_, ?_, ?_⟩
  · intro hn
    have hcond : ((msgCleared st).needsNewMessage || (msgCleared st).lastMessageId.isNone) = true := by
      rcases hn with h | h <;> simp [msgCleared, h]
    obtain ⟨st', r, rest, hfc⟩ := sendFirstChunk_sendNew (msgCleared st) edit sends hcond
    refine ⟨r, ?_⟩
    rw [heq, hfc]
    dsimp only
    rw [List.filter_append, List.filter_append, hdel, List.nil_append]
    simp [DAction.isDelete]
  · intro m h1 h2
    obtain ⟨st', tail, rest, hfc⟩ := sendFirstChunk_edit (msgCleared st) edit sends m
      (by simp [msgCleared, h1]) (by simp [msgCleared, h2])
    rw [heq, hfc]
    dsimp only
    rw [List.filter_append, List.filter_append, hdel, List.nil_append]
    simp [DAction.isDelete]
  · intro m h1 h2 hedit
    subst hedit
    obtain ⟨st', r, rest, hfc⟩ := sendFirstChunk_fallback (msgCleared st) sends m
      (by simp [msgCleared, h1]) (by simp [msgCleared, h2])
    refine ⟨r, ?_⟩
    rw [heq, hfc]
    dsimp only
    simp
  · intro m h1 h2 hedit h4000
    subst hedit
    have hfc := sendFirstChunk_notModified (msgCleared st) sends m
      (by simp [msgCleared, h1]) (by simp [msgCleared, h2])
    have hsplit : splitMessage output = [output] := by
      unfold splitMessage
      rw [if_pos h4000]
    rw [heq, hfc, hsplit]
    dsimp only [sendRestChunks]
    refine ⟨?_, by simp [msgCleared, h2], by simp [msgCleared]⟩
    rw [List.filter_append, List.filter_append, hdel, List.nil_append]
    simp [DAction.isDelete]

/-- C8 counterexample: the terminal text normalizer is not idempotent.  For
`"a\n\n \n\nb"` the first pass keeps the whitespace-only line during the
blank-run collapse and only drops it in the final line filter, leaving a
fresh three-newline run that a second pass collapses further. -/
theorem cleanOutput_not_idempotent :
    cleanOutputS (cleanOutputS "a\n\n \n\nb") ≠ cleanOutputS "a\n\n \n\nb" := by decide

/-- Characters that can survive `cleanOutput`: newline, or a character that
is neither in the stripped control class nor a carriage return.  A second
stripping pass leaves exactly these untouched. -/
def goodChar (c : Char) : Bool := !isStrippedCtrl c && !(c = '\r')

/-- Characters of a global literal replacement all satisfy `P` when both the
input and the replacement do. -/
theorem replaceAllAux_all (P : Char → Bool) (pat rep : List Char)
    (hrep : ∀ c ∈ rep, P c = true) :
    ∀ (fuel : Nat) (cs : List Char), (∀ c ∈ cs, P c = true) →
      ∀ c ∈ replaceAllAux pat rep fuel cs, P c = true := by
  intro fuel
  induction fuel with
  | zero =>
    intro cs hcs c hc
    cases cs with
    | nil => simp [replaceAllAux] at hc
    | cons a as => exact hcs c hc
  | succ fuel ih =>
    intro cs hcs c hc
    cases cs with
    | nil => simp [replaceAllAux] at hc
    | cons a as =>
      rw [replaceAllAux] at hc
      by_cases hm : (!pat.isEmpty && pat.isPrefixOf (a :: as)) = true
      · rw [if_pos hm] at hc
        rcases List.mem_append.mp hc with h | h
        · exact hrep c h
        · exact ih _ (fun x hx => hcs x (List.drop_subset _ _ hx)) c h
      · rw [if_neg hm] at hc
        rcases List.mem_cons.mp hc with rfl | h
        · exact hcs c (List.mem_cons_self _ _)
        · exact ih as (fun x hx => hcs x (List.mem_cons_of_mem _ hx)) c h

theorem replaceAll_all (P : Char → Bool) (pat rep : List Char)
    (hrep : ∀ c ∈ rep, P c = true) (cs : List Char) (hcs : ∀ c ∈ cs, P c = true) :
    ∀ c ∈ replaceAll pat rep cs, P c = true :=
  replaceAllAux_all P pat rep hrep cs.length cs hcs

/-- For a single-character pattern, every output character is either from
the replacement or an input character different from the pattern. -/
theorem replaceAllAux_single (a : Char) (rep : List Char) :
    ∀ (fuel : Nat) (cs : List Char), cs.length ≤ fuel →
      ∀ c ∈ replaceAllAux [a] rep fuel cs, c ∈ rep ∨ (c ∈ cs ∧ c ≠ a) := by
  intro fuel
  induction fuel with
  | zero =>
    intro cs hlen c hc
    have : cs = [] := List.length_eq_zero.mp (Nat.le_zero.mp hlen)
    subst this
    simp [replaceAllAux] at hc
  | succ fuel ih =>
    intro cs hlen c hc
    cases cs with
    | nil => simp [replaceAllAux] at hc
    | cons a0 as =>
      rw [replaceAllAux] at hc
      by_cases hm : (!([a] : List Char).isEmpty && ([a] : List Char).isPrefixOf (a0 :: as)) = true
      · rw [if_pos hm] at hc
        rcases List.mem_append.mp hc with h | h
        · exact Or.inl h
        · rcases ih as (by simpa using hlen) c (by simpa using h) with h' | ⟨h1, h2⟩
          · exact Or.inl h'
          · exact Or.inr ⟨List.mem_cons_of_mem _ h1, h2⟩
      · have ha : a ≠ a0 := by
          simp [List.isPrefixOf] at hm
          exact hm
        rw [if_neg hm] at hc
        rcases List.mem_cons.mp hc with rfl | h
        · exact Or.inr ⟨List.mem_cons_self _ _, fun hce => ha hce.symm⟩
        · rcases ih as (by simpa using hlen) c h with h' | ⟨h1, h2⟩
          · exact Or.inl h'
          · exact Or.inr ⟨List.mem_cons_of_mem _ h1, h2⟩

theorem replaceAll_single (a : Char) (rep cs : List Char) :
    ∀ c ∈ replaceAll [a] rep cs, c ∈ rep ∨ (c ∈ cs ∧ c ≠ a) :=
  replaceAllAux_single a rep cs.length cs le_rfl

theorem jsTrim_subset (cs : List Char) : jsTrim cs ⊆ cs := by
  intro c hc
  unfold jsTrim at hc
  rw [List.mem_reverse] at hc
  have h1 := (List.dropWhile_sublist isJsWs).subset hc
  rw [List.mem_reverse] at h1
  exact (List.dropWhile_sublist isJsWs).subset h1

theorem splitNl_ne_nil (cs : List Char) : splitNl cs ≠ [] := by
  induction cs with
  | nil => simp [splitNl]
  | cons c cs ih =>
    by_cases h : c = '\n'
    · simp [splitNl, h]
    · rw [splitNl, if_neg h]
      rcases hs : splitNl cs with _ | ⟨l, ls⟩
      · simp
      · simp

/-- Every character of a line of `splitNl cs` is a character of `cs`. -/
theorem splitNl_mem_subset : ∀ (cs l : List Char), l ∈ splitNl cs → ∀ c ∈ l, c ∈ cs := by
  intro cs
  induction cs with
  | nil =>
    intro l hl c hc
    simp [splitNl] at hl
    subst hl
    simp at hc
  | cons a as ih =>
    intro l hl c hc
    by_cases h : a = '\n'
    · rw [splitNl, if_pos h] at hl
      rcases List.mem_cons.mp hl with rfl | hl'
      · simp at hc
      · exact List.mem_cons_of_mem _ (ih l hl' c hc)
    · rw [splitNl, if_neg h] at hl
      rcases hs : splitNl as with _ | ⟨l0, ls⟩
      · exact absurd hs (splitNl_ne_nil as)
      · rw [hs] at hl
        rcases List.mem_cons.mp hl with rfl | hl'
        · rcases List.mem_cons.mp hc with rfl | hc'
          · exact List.mem_cons_self _ _
          · exact List.mem_cons_of_mem _ (ih l0 (hs ▸ List.mem_cons_self l0 ls) c hc')
        · exact List.mem_cons_of_mem _ (ih l (hs ▸ List.mem_cons_of_mem l0 hl') c hc)

/-- Every character of `joinNl ls` is a newline or a character of a line. -/
theorem joinNl_mem : ∀ (ls : List (List Char)) (c : Char), c ∈ joinNl ls →
    c = '\n' ∨ ∃ l ∈ ls, c ∈ l := by
  intro ls
  induction ls with
  | nil => intro c hc; simp [joinNl] at hc
  | cons l ls ih =>
    cases ls with
    | nil =>
      intro c hc
      exact Or.inr ⟨l, List.mem_cons_self _ _, by simpa [joinNl] using hc⟩
    | cons l2 ls2 =>
      intro c hc
      have hj : joinNl (l :: l2 :: ls2) = l ++ '\n' :: joinNl (l2 :: ls2) := rfl
      rw [hj] at hc
      rcases List.mem_append.mp hc with h | h
      · exact Or.inr ⟨l, List.mem_cons_self _ _, h⟩
      · rcases List.mem_cons.mp h with rfl | h'
        · exact Or.inl rfl
        · rcases ih c h' with h'' | ⟨l', hl', hcl⟩
          · exact Or.inl h''
          · exact Or.inr ⟨l', List.mem_cons_of_mem _ hl', hcl⟩

/-- Every character of `collapseNlGo n cs` is a newline or a character of
`cs`. -/
theorem collapseNlGo_mem : ∀ (cs : List Char) (n : Nat) (c : Char),
    c ∈ collapseNlGo n cs → c = '\n' ∨ c ∈ cs := by
  intro cs
  induction cs with
  | nil =>
    intro n c hc
    rw [collapseNlGo] at hc
    exact Or.inl (List.eq_of_mem_replicate hc)
  | cons a as ih =>
    intro n c hc
    rw [collapseNlGo] at hc
    by_cases h : a = '\n'
    · rw [if_pos h] at hc
      rcases ih (n + 1) c hc with h' | h'
      · exact Or.inl h'
      · exact Or.inr (List.mem_cons_of_mem _ h')
    · rw [if_neg h] at hc
      rcases List.mem_append.mp hc with h' | h'
      · exact Or.inl (List.eq_of_mem_replicate h')
      · rcases List.mem_cons.mp h' with rfl | h''
        · exact Or.inr (List.mem_cons_self _ _)
        · rcases ih 0 c h'' with h3 | h3
          · exact Or.inl h3
          · exact Or.inr (List.mem_cons_of_mem _ h3)

/-- `urlSplit` only rearranges characters of the line. -/
theorem urlSplitGo_mem : ∀ (l acc pre url : List Char), urlSplitGo acc l = some (pre, url) →
    (∀ c ∈ pre, c ∈ acc ∨ c ∈ l) ∧ (∀ c ∈ url, c ∈ l) := by
  intro l
  induction l with
  | nil => intro acc pre url h; simp [urlSplitGo] at h
  | cons a as ih =>
    intro acc pre url h
    rw [urlSplitGo] at h
    split at h
    · rw [Option.some_inj] at h
      have h1 : acc.reverse = pre := congrArg Prod.fst h
      have h2 : a :: as = url := congrArg Prod.snd h
      subst h1
      subst h2
      exact ⟨fun c hc => Or.inl (List.mem_reverse.mp hc), fun c hc => hc⟩
    · have := ih (a :: acc) pre url h
      refine ⟨fun c hc => ?_, fun c hc => List.mem_cons_of_mem _ ((this.2) c hc)⟩
      rcases this.1 c hc with h' | h'
      · rcases List.mem_cons.mp h' with rfl | h''
        · exact Or.inr (List.mem_cons_self _ _)
        · exact Or.inl h''
      · exact Or.inr (List.mem_cons_of_mem _ h')

/-- Every character emitted by the URL-joining line walk comes from the
carried state or from one of the lines. -/
theorem joinUrlsGo_mem :
    ∀ (lines : List (List Char)) (state : Option (List Char × List Char)) (l' : List Char),
      l' ∈ joinUrlsGo state lines → ∀ c ∈ l',
        (∃ pre url, state = some (pre, url) ∧ (c ∈ pre ∨ c ∈ url)) ∨ ∃ l ∈ lines, c ∈ l := by
  intro lines
  induction lines with
  | nil =>
    intro state l' hl' c hc
    cases state with
    | none => simp [joinUrlsGo] at hl'
    | some pu =>
      rcases pu with ⟨pre, url⟩
      rw [joinUrlsGo] at hl'
      simp at hl'
      subst hl'
      rcases List.mem_append.mp hc with h | h
      · exact Or.inl ⟨pre, url, rfl, Or.inl h⟩
      · exact Or.inl ⟨pre, url, rfl, Or.inr h⟩
  | cons l rest ih =>
    intro state l' hl' c hc
    cases state with
    | none =>
      rw [joinUrlsGo] at hl'
      rcases hu : urlSplit l with _ | ⟨pre1, url1⟩ <;> rw [hu] at hl' <;> dsimp only at hl'
      · rcases List.mem_cons.mp hl' with rfl | h
        · exact Or.inr ⟨l', List.mem_cons_self _ _, hc⟩
        · rcases ih none l' h c hc with ⟨pre, url, hst, -⟩ | ⟨l0, hl0, hcl0⟩
          · exact absurd hst (by simp)
          · exact Or.inr ⟨l0, List.mem_cons_of_mem _ hl0, hcl0⟩
      · rcases ih (some (pre1, url1)) l' hl' c hc with ⟨pre, url, hst, hor⟩ | ⟨l0, hl0, hcl0⟩
        · have h12 : pre1 = pre ∧ url1 = url := by simpa using hst
          have hmem := urlSplitGo_mem l [] pre1 url1 hu
          rcases hor with h | h
          · rw [← h12.1] at h
            rcases hmem.1 c h with h' | h'
            · simp at h'
            · exact Or.inr ⟨l, List.mem_cons_self _ _, h'⟩
          · rw [← h12.2] at h
            exact Or.inr ⟨l, List.mem_cons_self _ _, hmem.2 c h⟩
        · exact Or.inr ⟨l0, List.mem_cons_of_mem _ hl0, hcl0⟩
    | some pu =>
      rcases pu with ⟨pre0, url0⟩
      rw [joinUrlsGo] at hl'
      by_cases hab : absorbCond l = true
      · rw [if_pos hab] at hl'
        rcases ih (some (pre0, url0 ++ jsTrim l)) l' hl' c hc with ⟨pre, url, hst, hor⟩ | ⟨l0, hl0, hcl0⟩
        · have h12 : pre0 = pre ∧ url0 ++ jsTrim l = url := by simpa using hst
          rcases hor with h | h
          · rw [← h12.1] at h
            exact Or.inl ⟨pre0, url0, rfl, Or.inl h⟩
          · rw [← h12.2] at h
            rcases List.mem_append.mp h with h' | h'
            · exact Or.inl ⟨pre0, url0, rfl, Or.inr h'⟩
            · exact Or.inr ⟨l, List.mem_cons_self _ _, jsTrim_subset l h'⟩
        · exact Or.inr ⟨l0, List.mem_cons_of_mem _ hl0, hcl0⟩
      · rw [if_neg hab] at hl'
        rcases List.mem_cons.mp hl' with rfl | h
        · rcases List.mem_append.mp hc with h | h
          · exact Or.inl ⟨pre0, url0, rfl, Or.inl h⟩
          · exact Or.inl ⟨pre0, url0, rfl, Or.inr h⟩
        · rcases hu : urlSplit l with _ | ⟨pre1, url1⟩ <;> rw [hu] at h <;> dsimp only at h
          · rcases List.mem_cons.mp h with rfl | h'
            · exact Or.inr ⟨l', List.mem_cons_self _ _, hc⟩
            · rcases ih none l' h' c hc with ⟨pre, url, hst, -⟩ | ⟨l0, hl0, hcl0⟩
              · exact absurd hst (by simp)
              · exact Or.inr ⟨l0, List.mem_cons_of_mem _ hl0, hcl0⟩
          · rcases ih (some (pre1, url1)) l' h c hc with ⟨pre, url, hst, hor⟩ | ⟨l0, hl0, hcl0⟩
            · have h12 : pre1 = pre ∧ url1 = url := by simpa using hst
              have hmem := urlSplitGo_mem l [] pre1 url1 hu
              rcases hor with h2 | h2
              · rw [← h12.1] at h2
                rcases hmem.1 c h2 with h' | h'
                · simp at h'
                · exact Or.inr ⟨l, List.mem_cons_self _ _, h'⟩
              · rw [← h12.2] at h2
                exact Or.inr ⟨l, List.mem_cons_self _ _, hmem.2 c h2⟩
            · exact Or.inr ⟨l0, List.mem_cons_of_mem _ hl0, hcl0⟩

/-- Lifting a character predicate through `joinBrokenUrls`. -/
theorem joinBrokenUrls_all (P : Char → Bool) (hnl : P '\n' = true) (cs : List Char)
    (hcs : ∀ c ∈ cs, P c = true) : ∀ c ∈ joinBrokenUrls cs, P c = true := by
  intro c hc
  unfold joinBrokenUrls at hc
  rcases joinNl_mem _ c hc with rfl | ⟨l', hl', hcl⟩
  · exact hnl
  · rcases joinUrlsGo_mem (splitNl cs) none l' hl' c hcl with ⟨pre, url, hst, -⟩ | ⟨l, hl, hcl2⟩
    · exact absurd hst (by simp)
    · exact hcs c (splitNl_mem_subset cs l hl c hcl2)

/-- C8 (amended): the normalizer's output contains no residual control
characters — every character of `cleanOutput`'s result is a newline or an
ordinary printable character (no ANSI escape bytes, no carriage returns, no
stripped control characters), so a second application has nothing left to
strip; but `cleanOutput` is *not* idempotent (see the counterexample): the
final blank-line filter can create a fresh newline run that only another
pass would collapse. -/
theorem cleanOutput_no_residual_control :
    ∀ cs : List Char, ((cleanOutput cs).all goodChar) = true ∧
      (cleanOutput cs).filter (fun c => !isStrippedCtrl c) = cleanOutput cs := by
  intro s
  have hb : ∀ c ∈ (convertAnsiToMarkdown s).filter (fun c => !isStrippedCtrl c),
      (!isStrippedCtrl c) = true := fun c hc => (List.mem_filter.mp hc).2
  have hc1 := replaceAll_all (fun c => !isStrippedCtrl c) ['\r', '\n'] ['\n']
    (by decide) _ hb
  have hc2 : ∀ c ∈ replaceAll ['\r'] ['\n'] (replaceAll ['\r', '\n'] ['\n']
      ((convertAnsiToMarkdown s).filter fun c => !isStrippedCtrl c)),
      goodChar c = true := by
    intro c hc
    rcases replaceAll_single '\r' ['\n'] _ c hc with h | ⟨hmem, hne⟩
    · simp at h
      subst h
      decide
    · have hgood := hc1 c hmem
      simp only [goodChar, Bool.and_eq_true, hgood, true_and]
      simpa using hne
  have hd := joinBrokenUrls_all goodChar (by decide) _ hc2
  have he : ∀ c ∈ collapseNl (joinBrokenUrls (replaceAll ['\r'] ['\n']
      (replaceAll ['\r', '\n'] ['\n']
        ((convertAnsiToMarkdown s).filter fun c => !isStrippedCtrl c)))),
      goodChar c = true := by
    intro c hc
    rcases collapseNlGo_mem _ 0 c hc with rfl | h
    · decide
    · exact hd c h
  have hmain : ∀ c ∈ cleanOutput s, goodChar c = true := by
    intro c hc
    have hc' : c ∈ jsTrim (joinNl (((splitNl (collapseNl (joinBrokenUrls
        (replaceAll ['\r'] ['\n'] (replaceAll ['\r', '\n'] ['\n']
          ((convertAnsiToMarkdown s).filter fun c => !isStrippedCtrl c)))))).filter
        fun l => !(jsTrim l).isEmpty || l.isEmpty))) := hc
    have hc2' := jsTrim_subset _ hc'
    rcases joinNl_mem _ c hc2' with rfl | ⟨l, hl, hcl⟩
    · decide
    · exact he c (splitNl_mem_subset _ l (List.mem_of_mem_filter hl) c hcl)
  refine ⟨List.all_eq_true.mpr hmain, List.filter_eq_self.mpr fun c hcmem => ?_⟩
  have h := hmain c hcmem
  simp only [goodChar, Bool.and_eq_true] at h
  exact h.1

/-- Witness for `toolCallLine_icons` at the bullet-free tool line
`"Bash(pwd)"`. -/
theorem toolCallLine_icons_witness :
    normalizeToolCallLine "Bash(pwd)".data = '✓' :: ' ' :: jsTrim "Bash(pwd)".data :=
  toolCallLine_icons.2.2 "Bash(pwd)".data (by decide) (by decide)

/-- Witness for `stopSession_noop_idem` on empty adapter states. -/
theorem stopSession_noop_idem_witness :
    claudeStopSession (fun _ => none) 0 = ((fun _ => none), [], []) ∧
    openCodeStopSession (fun _ => none) 0 = ((fun _ => none), [], [], []) :=
  ⟨(stopSession_noop_idem (fun _ => none) (fun _ => none) 0).1 rfl,
   (stopSession_noop_idem (fun _ => none) (fun _ => none) 0).2.1 rfl⟩

/-- Witness for `checkIsStatusOutput_spec` at `"Thinking…"`. -/
theorem checkIsStatusOutput_spec_witness :
    checkIsStatusOutput "Thinking…".data = true :=
  ((checkIsStatusOutput_spec "Thinking…".data (by decide)).2.2).mpr (by decide)

/-- Witness for `sendOutputImmediate_newVsEdit`: a "message is not modified"
edit failure produces exactly the edit attempt and no new message. -/
theorem sendOutputImmediate_newVsEdit_witness :
    ((sendOutputImmediate ⟨some 7, false, [7], none, none⟩ "ok".data .errNotModified []).2.filter
        fun a => !a.isDelete) = [.editMsg 7 .errNotModified] :=
  ((sendOutputImmediate_newVsEdit ⟨some 7, false, [7], none, none⟩ "ok".data
      .errNotModified []).2.2.2 7 rfl rfl rfl (by decide)).1

/-- Witness for `withRateLimitRetry_spec`: `retry_after = 2` s with jitter
multiplier 1.2 gives one retry after 2400 ms. -/
theorem withRateLimitRetry_spec_witness :
    (@withRateLimitRetry Nat 0 0 (.err429 (some 2)) (.err429 (some 1)) (1/5) 0).attempts = 2 ∧
    (@withRateLimitRetry Nat 0 0 (.err429 (some 2)) (.err429 (some 1)) (1/5) 0).retryWait = 2400 := by
  have h := withRateLimitRetry_spec Nat 0 0 2 (.err429 (some 1)) (1/5) 0
    (by norm_num) (by norm_num)
  refine ⟨h.1.1, ?_⟩
  rw [h.1.2.1]
  norm_num

end TelegramCode
